import Mathlib

/-!
Shallow embedding of the vocabulary, tokenizer and batch-collation code of
the `bds-nlp-2018` teaching notebooks
(`notebooks/ex1-getting-data-nn-ready.ipynb` and
`notebooks/ex3-building-a-robust-configurable-nn.ipynb`; the `Vocab` and
`Tokenizer` classes are identical in both notebooks).

Python dictionaries are embedded as association lists in insertion order
(`add_word` only ever inserts keys that are absent, so no duplicate keys
arise and lookup of the first match coincides with Python dict lookup).
Python exceptions are embedded as `Except PyError`.
-/

namespace BdsNlp

/-- The kinds of Python exception the embedded code can raise:
`keyError` for a failed dictionary subscript (a Python `LookupError`),
`attributeError` for reading an attribute that was never assigned
(not a Python `LookupError`). -/
inductive PyError where
  | keyError
  | attributeError
deriving DecidableEq, Repr

instance instDecEqExcept {ε α : Type} [DecidableEq ε] [DecidableEq α] :
    DecidableEq (Except ε α) := fun x y =>
  match x, y with
  | Except.ok a, Except.ok b =>
    if h : a = b then Decidable.isTrue (congrArg Except.ok h)
    else Decidable.isFalse (fun heq => h (Except.ok.inj heq))
  | Except.error a, Except.error b =>
    if h : a = b then Decidable.isTrue (congrArg Except.error h)
    else Decidable.isFalse (fun heq => h (Except.error.inj heq))
  | Except.ok _, Except.error _ => Decidable.isFalse (fun heq => Except.noConfusion heq)
  | Except.error _, Except.ok _ => Decidable.isFalse (fun heq => Except.noConfusion heq)

/-- State of a `Vocab` object.  `unk_symbol` and `unk_id` are `Option`s
because the Python `__init__` assigns these two attributes only when
`is_label` is false; `none` embeds the attribute being absent. -/
structure Vocab where
  size : Nat
  word_to_id : List (String × Nat)
  id_to_word : List (Nat × String)
  unk_symbol : Option String
  unk_id : Option Nat
deriving DecidableEq, Repr

namespace Vocab

/-- `Vocab.add_word`:
```python
def add_word(self, w):
    if w not in self.word_to_id:
        self.word_to_id[w] = self.size
        self.id_to_word[self.size] = w
        self.size += 1
    return self.size - 1
```
Returns the updated state together with the returned value. -/
def add_word (v : Vocab) (w : String) : Vocab × Nat :=
  let v' :=
    if (List.lookup w v.word_to_id).isSome then v
    else { v with
           word_to_id := v.word_to_id ++ [(w, v.size)],
           id_to_word := v.id_to_word ++ [(v.size, w)],
           size := v.size + 1 }
  (v', v'.size - 1)

/-- `Vocab.__init__(unk_symbol, is_label)`:
```python
def __init__(self, unk_symbol='<unk>', is_label=False):
    self.size = 0
    self.word_to_id = {}
    self.id_to_word = {}
    if not is_label:
        self.unk_symbol = unk_symbol
        self.unk_id = self.add_word(unk_symbol)
```
-/
def init (unk_symbol : String) (is_label : Bool) : Vocab :=
  let v : Vocab :=
    { size := 0, word_to_id := [], id_to_word := [],
      unk_symbol := none, unk_id := none }
  if is_label then v
  else
    let v := { v with unk_symbol := some unk_symbol }
    let p := v.add_word unk_symbol
    { p.1 with unk_id := some p.2 }

/-- `Vocab.to_id`:
```python
def to_id(self, w):
    return self.word_to_id[w] if w in self.word_to_id else self.unk_id
```
When `w` is absent the code reads `self.unk_id`; on a label vocabulary
that attribute was never assigned, so the read raises `AttributeError`. -/
def to_id (v : Vocab) (w : String) : Except PyError Nat :=
  match List.lookup w v.word_to_id with
  | some i => Except.ok i
  | none =>
    match v.unk_id with
    | some u => Except.ok u
    | none => Except.error PyError.attributeError

/-- `Vocab.to_word`:
```python
def to_word(self, id):
    return self.id_to_word[id] if id in self.id_to_word else self.unk_symbol
```
-/
def to_word (v : Vocab) (i : Nat) : Except PyError String :=
  match List.lookup i v.id_to_word with
  | some w => Except.ok w
  | none =>
    match v.unk_symbol with
    | some s => Except.ok s
    | none => Except.error PyError.attributeError

/-- `Vocab.__len__`:
```python
def __len__(self):
    return self.size
```
-/
def len (v : Vocab) : Nat := v.size

/-- Explicit-state form of `to_id`: the method body is a single `return`
expression with no assignment, so the state out is the state in. -/
def to_id_st (v : Vocab) (w : String) : Vocab × Except PyError Nat :=
  (v, v.to_id w)

/-- Explicit-state form of `to_word`: the method body is a single `return`
expression with no assignment, so the state out is the state in. -/
def to_word_st (v : Vocab) (i : Nat) : Vocab × Except PyError String :=
  (v, v.to_word i)

/-- Explicit-state form of `__len__`: the method body is a single `return`
expression with no assignment, so the state out is the state in. -/
def len_st (v : Vocab) : Vocab × Nat :=
  (v, v.len)

/-- The vocabulary-building loop of the notebooks: repeated `add_word`
over a list of tokens, discarding the returned ids. -/
def addAll (v : Vocab) (ws : List String) : Vocab :=
  ws.foldl (fun v w => (v.add_word w).1) v

/-- The structural invariant every vocabulary reachable from `init`
satisfies: keys of the forward map are distinct, the ids listed in the
forward map are exactly `0, 1, ..., size - 1` in insertion order, and the
reverse map is the entrywise swap of the forward map. -/
def Inv (v : Vocab) : Prop :=
  (v.word_to_id.map Prod.fst).Nodup ∧
  v.word_to_id.map Prod.snd = List.range v.size ∧
  v.id_to_word = v.word_to_id.map (fun p => (p.2, p.1))

instance (v : Vocab) : Decidable v.Inv := by
  unfold Inv; infer_instance

/-- The distinct-tokens-in-first-seen-order trace: given the keys already
present, the sublist of `ws` keeping the first occurrence of each token not
yet seen.  This is the order in which `addAll` inserts new keys. -/
def newWords : List String → List String → List String
  | _, [] => []
  | keys, w :: ws =>
    if keys.contains w then newWords keys ws
    else w :: newWords (keys ++ [w]) ws

end Vocab

/-- Python `max` over a list (of the mapped sequence lengths):
raises `ValueError` on an empty iterable, embedded as `none`. -/
def pyMax : List Nat → Option Nat
  | [] => none
  | x :: xs => some (xs.foldl max x)

/-- `pad_tensor` for the rank-1 integer tensors the notebook collates
(the notebook instantiates `PadCollate(dim=0)` on 1-D token-id tensors):
```python
def pad_tensor(vec, pad, dim):
    pad_size = list(vec.shape)
    pad_size[dim] = pad - vec.size(dim)
    return torch.cat([vec, torch.zeros(*pad_size, dtype=torch.int64)], dim=dim)
```
`torch.zeros` raises when `pad - vec.size(dim)` is negative, embedded as
`none`. -/
def pad_tensor (vec : List Int) (pad : Nat) : Option (List Int) :=
  if pad < vec.length then none
  else some (vec ++ List.replicate (pad - vec.length) 0)

/-- Padding every sequence of the batch to `max_len`, keeping its label:
the `list(map(lambda b: (pad_tensor(b[0], pad=max_len, dim=self.dim), b[1]),
batch))` step of `pad_collate`; an error in any `pad_tensor` call
propagates. -/
def pad_batch (max_len : Nat) : List (List Int × Int) → Option (List (List Int × Int))
  | [] => some []
  | b :: bs =>
    match pad_tensor b.1 max_len, pad_batch max_len bs with
    | some t, some rest => some ((t, b.2) :: rest)
    | _, _ => none

/-- `torch.stack(ts, dim=0)` on a list of rank-1 tensors: requires a
non-empty list of tensors of equal length, else raises. -/
def torch_stack (ts : List (List Int)) : Option (List (List Int)) :=
  match ts with
  | [] => none
  | t :: rest =>
    if rest.all (fun s => s.length = t.length) then some (t :: rest) else none

/-- `PadCollate.pad_collate` (the notebook uses `PadCollate(dim=0)` on
batches of (rank-1 token-id tensor, integer label) pairs):
```python
def pad_collate(self, batch):
    max_len = max(map(lambda x: x[0].shape[self.dim], batch))
    batch = list(map(lambda b:
                (pad_tensor(b[0], pad=max_len, dim=self.dim), b[1]), batch))
    xs = torch.stack(list(map(lambda x: x[0], batch)), dim=0)
    ys = torch.LongTensor(list(map(lambda x: x[1], batch)))
    return xs, ys
```
`torch.LongTensor` on a list of integer labels keeps their values. -/
def pad_collate (batch : List (List Int × Int)) : Option (List (List Int) × List Int) :=
  match pyMax (batch.map (fun x => x.1.length)) with
  | none => none
  | some max_len =>
    match pad_batch max_len batch with
    | none => none
    | some padded =>
      match torch_stack (padded.map (fun x => x.1)) with
      | none => none
      | some xs => some (xs, padded.map (fun x => x.2))

/-- `Tokenizer` configuration: the single `lowercase` flag set in
`__init__`. -/
structure Tokenizer where
  lowercase : Bool
deriving DecidableEq, Repr

/-- Python `text.split(' ')` on the character list of `text`: the text is
cut at every single occurrence of the space character; consecutive spaces
produce empty pieces, and no other character delimits. -/
def splitSpace : List Char → List (List Char)
  | [] => [[]]
  | c :: cs =>
    match splitSpace cs with
    | [] => []
    | t :: ts => if c = ' ' then [] :: t :: ts else (c :: t) :: ts

/-- `Tokenizer.__call__`:
```python
def __call__(self, text):
    return [w.lower() if self.lowercase else w for w in text.split(' ')]
```
Text is embedded as a list of characters; `str.lower` as
`Char.toLower` per character. -/
def Tokenizer.call (tk : Tokenizer) (text : List Char) : List (List Char) :=
  (splitSpace text).map (fun w => if tk.lowercase then w.map Char.toLower else w)

/-- Modelled from the spec: "whitespace-delimited splitting" of a text into
an ordered sequence of tokens, i.e. Python `str.split()` with no argument:
runs of whitespace delimit, and no empty tokens are produced.  Used only to
compare the spec's description of the tokenizer with the code's
`split(' ')`. -/
def isPySpace (c : Char) : Bool :=
  c = ' ' || c = '\t' || c = '\n' || c = '\r' || c = '\x0b' || c = '\x0c'

/-- Modelled from the spec: the token list produced by whitespace-delimited
splitting (runs of whitespace separate tokens, empty tokens dropped). -/
def wsSplit : List Char → List (List Char)
  | [] => []
  | c :: cs =>
    if isPySpace c then wsSplit cs
    else
      match cs, wsSplit cs with
      | [], _ => [[c]]
      | c2 :: _, r =>
        if isPySpace c2 then [c] :: r
        else
          match r with
          | [] => [[c]]
          | t :: ts => (c :: t) :: ts

/-- Interleaving a single space between pieces: the left inverse of
`splitSpace` used to characterise it. -/
def joinSpaces : List (List Char) → List Char
  | [] => []
  | [t] => t
  | t :: t' :: ts => t ++ ' ' :: joinSpaces (t' :: ts)

/-! ### Helper lemmas about association-list lookup -/

theorem lookup_eq_none_iff {α β : Type} [BEq α] [LawfulBEq α] (a : α)
    (l : List (α × β)) : List.lookup a l = none ↔ a ∉ l.map Prod.fst := by
  induction l with
  | nil => simp [List.lookup]
  | cons p ps ih =>
    obtain ⟨k, b⟩ := p
    by_cases hk : a = k
    · subst hk; simp [List.lookup]
    · simp only [List.lookup, beq_false_of_ne hk, List.map_cons, List.mem_cons]
      rw [ih]
      simp [hk]

theorem lookup_isSome_iff {α β : Type} [BEq α] [LawfulBEq α] (a : α)
    (l : List (α × β)) : (List.lookup a l).isSome = true ↔ a ∈ l.map Prod.fst := by
  rw [Option.isSome_iff_ne_none, ne_eq, lookup_eq_none_iff]
  exact not_not

theorem lookup_append_of_none {α β : Type} [BEq α] (a : α)
    {l₁ : List (α × β)} (l₂ : List (α × β)) (h : List.lookup a l₁ = none) :
    List.lookup a (l₁ ++ l₂) = List.lookup a l₂ := by
  induction l₁ with
  | nil => simp
  | cons p ps ih =>
    obtain ⟨k, b⟩ := p
    simp only [List.lookup] at h ⊢
    cases hk : a == k with
    | true => simp [hk] at h
    | false =>
      simp only [hk] at h ⊢
      exact ih h

theorem lookup_of_mem_nodup {α β : Type} [BEq α] [LawfulBEq α]
    {a : α} {b : β} {l : List (α × β)} (hnd : (l.map Prod.fst).Nodup)
    (hm : (a, b) ∈ l) : List.lookup a l = some b := by
  induction l with
  | nil => simp at hm
  | cons p ps ih =>
    obtain ⟨k, c⟩ := p
    simp only [List.map_cons, List.nodup_cons] at hnd
    rcases List.mem_cons.mp hm with heq | hmem
    · obtain ⟨h1, h2⟩ := Prod.mk.injEq .. ▸ heq
      cases heq
      simp [List.lookup]
    · have hak : a ≠ k := by
        rintro rfl
        exact hnd.1 (List.mem_map.mpr ⟨(a, b), hmem, rfl⟩)
      simp only [List.lookup, beq_false_of_ne hak]
      exact ih hnd.2 hmem

theorem mem_of_lookup_eq_some {α β : Type} [BEq α] [LawfulBEq α]
    {a : α} {b : β} {l : List (α × β)} (h : List.lookup a l = some b) :
    (a, b) ∈ l := by
  induction l with
  | nil => simp [List.lookup] at h
  | cons p ps ih =>
    obtain ⟨k, c⟩ := p
    simp only [List.lookup] at h
    cases hk : a == k with
    | true =>
      simp only [hk] at h
      cases h
      cases eq_of_beq hk
      exact List.mem_cons_self ..
    | false =>
      simp only [hk] at h
      exact List.mem_cons_of_mem _ (ih h)

theorem lookup_append_of_some {α β : Type} [BEq α] {a : α} {b : β}
    {l₁ : List (α × β)} (l₂ : List (α × β)) (h : List.lookup a l₁ = some b) :
    List.lookup a (l₁ ++ l₂) = some b := by
  induction l₁ with
  | nil => simp [List.lookup] at h
  | cons p ps ih =>
    obtain ⟨k, c⟩ := p
    simp only [List.lookup] at h ⊢
    cases hk : a == k with
    | true => simpa [hk] using h
    | false =>
      simp only [hk] at h ⊢
      exact ih h

/-! ### Helper lemmas about Python `max` -/

theorem le_foldl_max (xs : List Nat) (a : Nat) : a ≤ xs.foldl max a := by
  induction xs generalizing a with
  | nil => simp
  | cons x xs ih =>
    simp only [List.foldl_cons]
    exact le_trans (le_max_left a x) (ih (max a x))

theorem le_foldl_max_of_mem {xs : List Nat} {x : Nat} (a : Nat) (h : x ∈ xs) :
    x ≤ xs.foldl max a := by
  induction xs generalizing a with
  | nil => simp at h
  | cons y ys ih =>
    simp only [List.foldl_cons]
    rcases List.mem_cons.mp h with rfl | hmem
    · exact le_trans (le_max_right a x) (le_foldl_max ys (max a x))
    · exact ih (max a y) hmem

theorem foldl_max_mem (xs : List Nat) (a : Nat) :
    xs.foldl max a = a ∨ xs.foldl max a ∈ xs := by
  induction xs generalizing a with
  | nil => simp
  | cons x xs ih =>
    simp only [List.foldl_cons]
    rcases ih (max a x) with h | h
    · rcases max_cases a x with ⟨hm, _⟩ | ⟨hm, _⟩
      · exact Or.inl (h.trans hm)
      · exact Or.inr (List.mem_cons.mpr (Or.inl (h.trans hm)))
    · exact Or.inr (List.mem_cons_of_mem _ h)

theorem pyMax_spec {xs : List Nat} {M : Nat} (h : pyMax xs = some M) :
    (∀ x ∈ xs, x ≤ M) ∧ M ∈ xs := by
  match xs with
  | [] => simp [pyMax] at h
  | x :: rest =>
    simp only [pyMax, Option.some.injEq] at h
    subst h
    refine ⟨?_, ?_⟩
    · intro y hy
      rcases List.mem_cons.mp hy with rfl | hmem
      · exact le_foldl_max rest y
      · exact le_foldl_max_of_mem x hmem
    · rcases foldl_max_mem rest x with h | h
      · rw [h]; exact List.mem_cons_self ..
      · exact List.mem_cons_of_mem _ h

theorem pyMax_isSome {xs : List Nat} (h : xs ≠ []) : ∃ M, pyMax xs = some M := by
  match xs with
  | [] => exact absurd rfl h
  | x :: rest => exact ⟨rest.foldl max x, rfl⟩

/-! ### Lemmas about `Vocab.add_word` and the reachable-state invariant -/

namespace Vocab

theorem add_word_of_present {v : Vocab} {w : String}
    (h : (List.lookup w v.word_to_id).isSome = true) :
    v.add_word w = (v, v.size - 1) := by
  simp [add_word, h]

theorem add_word_of_absent {v : Vocab} {w : String}
    (h : List.lookup w v.word_to_id = none) :
    v.add_word w =
      ({ v with word_to_id := v.word_to_id ++ [(w, v.size)],
                id_to_word := v.id_to_word ++ [(v.size, w)],
                size := v.size + 1 }, v.size) := by
  simp [add_word, h]

theorem add_word_unk_id (v : Vocab) (w : String) :
    (v.add_word w).1.unk_id = v.unk_id := by
  by_cases h : (List.lookup w v.word_to_id).isSome = true
  · simp [add_word, h]
  · simp [add_word, h]

theorem add_word_unk_symbol (v : Vocab) (w : String) :
    (v.add_word w).1.unk_symbol = v.unk_symbol := by
  by_cases h : (List.lookup w v.word_to_id).isSome = true
  · simp [add_word, h]
  · simp [add_word, h]

theorem addAll_unk_id (ws : List String) (v : Vocab) :
    (v.addAll ws).unk_id = v.unk_id := by
  induction ws generalizing v with
  | nil => rfl
  | cons w ws ih =>
    show ((v.add_word w).1.addAll ws).unk_id = v.unk_id
    rw [ih, add_word_unk_id]

theorem addAll_unk_symbol (ws : List String) (v : Vocab) :
    (v.addAll ws).unk_symbol = v.unk_symbol := by
  induction ws generalizing v with
  | nil => rfl
  | cons w ws ih =>
    show ((v.add_word w).1.addAll ws).unk_symbol = v.unk_symbol
    rw [ih, add_word_unk_symbol]

theorem Inv.add_word {v : Vocab} (h : v.Inv) (w : String) :
    (v.add_word w).1.Inv := by
  obtain ⟨hnd, hsnd, hrev⟩ := h
  by_cases hp : (List.lookup w v.word_to_id).isSome = true
  · rw [add_word_of_present hp]
    exact ⟨hnd, hsnd, hrev⟩
  · have hnone : List.lookup w v.word_to_id = none := by
      cases hl : List.lookup w v.word_to_id with
      | none => rfl
      | some i => rw [hl] at hp; simp at hp
    have hw : w ∉ v.word_to_id.map Prod.fst := (lookup_eq_none_iff w _).mp hnone
    rw [add_word_of_absent hnone]
    refine ⟨?_, ?_, ?_⟩
    · rw [List.map_append, List.nodup_append]
      exact ⟨hnd, List.nodup_singleton w,
        fun a ha hb => hw (List.mem_singleton.mp (by simpa using hb) ▸ ha)⟩
    · simp only [List.map_append, hsnd, List.map_cons, List.map_nil]
      rw [List.range_succ]
    · simp [hrev]

theorem Inv.addAll {v : Vocab} (h : v.Inv) (ws : List String) :
    (v.addAll ws).Inv := by
  induction ws generalizing v with
  | nil => exact h
  | cons w ws ih =>
    show ((v.add_word w).1.addAll ws).Inv
    exact ih (h.add_word w)

theorem inv_init (u : String) (is_label : Bool) : (init u is_label).Inv := by
  cases is_label with
  | true => exact ⟨List.nodup_nil, rfl, rfl⟩
  | false =>
    refine ⟨?_, ?_, ?_⟩ <;> simp [init, add_word, List.lookup, List.range_succ]

theorem length_word_to_id {v : Vocab} (h : v.Inv) :
    v.word_to_id.length = v.size := by
  have := congrArg List.length h.2.1
  simpa using this

theorem length_id_to_word {v : Vocab} (h : v.Inv) :
    v.id_to_word.length = v.size := by
  rw [h.2.2, List.length_map]
  exact length_word_to_id h

theorem id_keys_eq_range {v : Vocab} (h : v.Inv) :
    v.id_to_word.map Prod.fst = List.range v.size := by
  rw [h.2.2, List.map_map]
  exact h.2.1

theorem add_word_lookup_preserved {v : Vocab} (w : String) {a : String}
    {i : Nat} (h : List.lookup a v.word_to_id = some i) :
    List.lookup a (v.add_word w).1.word_to_id = some i := by
  by_cases hp : (List.lookup w v.word_to_id).isSome = true
  · rw [add_word_of_present hp]
    exact h
  · have hnone : List.lookup w v.word_to_id = none := by
      cases hl : List.lookup w v.word_to_id with
      | none => rfl
      | some j => rw [hl] at hp; simp at hp
    rw [add_word_of_absent hnone]
    exact lookup_append_of_some _ h

theorem addAll_lookup_preserved (ws : List String) {v : Vocab} {a : String}
    {i : Nat} (h : List.lookup a v.word_to_id = some i) :
    List.lookup a (v.addAll ws).word_to_id = some i := by
  induction ws generalizing v with
  | nil => exact h
  | cons w ws ih =>
    show List.lookup a ((v.add_word w).1.addAll ws).word_to_id = some i
    exact ih (add_word_lookup_preserved w h)

theorem init_word_to_id (u : String) (is_label : Bool) :
    (init u is_label).word_to_id = if is_label then [] else [(u, 0)] := by
  cases is_label <;> rfl

theorem init_unk_id (u : String) (is_label : Bool) :
    (init u is_label).unk_id = if is_label then none else some 0 := by
  cases is_label <;> rfl

theorem init_unk_symbol (u : String) (is_label : Bool) :
    (init u is_label).unk_symbol = if is_label then none else some u := by
  cases is_label <;> rfl

theorem init_lookup_unk (u : String) :
    List.lookup u (init u false).word_to_id = some 0 := by
  simp [init, add_word, List.lookup]

/-- A token present in the forward map is looked up at its assigned id. -/
theorem to_id_of_mem {v : Vocab} (hv : v.Inv) {t : String} {i : Nat}
    (hm : (t, i) ∈ v.word_to_id) : v.to_id t = Except.ok i := by
  rw [to_id, lookup_of_mem_nodup hv.1 hm]

/-- An id present in the reverse map is looked up at its assigned token. -/
theorem to_word_of_mem {v : Vocab} (hv : v.Inv) {t : String} {i : Nat}
    (hm : (t, i) ∈ v.word_to_id) : v.to_word i = Except.ok t := by
  have hmem : (i, t) ∈ v.id_to_word := by
    rw [hv.2.2]
    exact List.mem_map.mpr ⟨(t, i), hm, rfl⟩
  have hnd : (v.id_to_word.map Prod.fst).Nodup := by
    rw [id_keys_eq_range hv]
    exact List.nodup_range v.size
  rw [to_word, lookup_of_mem_nodup hnd hmem]

/-! ### The first-seen key trace of `addAll` -/

theorem add_word_keys (v : Vocab) (w : String) :
    (v.add_word w).1.word_to_id.map Prod.fst =
      if (v.word_to_id.map Prod.fst).contains w then v.word_to_id.map Prod.fst
      else v.word_to_id.map Prod.fst ++ [w] := by
  by_cases hc : w ∈ v.word_to_id.map Prod.fst
  · have hp : (List.lookup w v.word_to_id).isSome = true :=
      (lookup_isSome_iff w _).mpr hc
    have he : (v.word_to_id.map Prod.fst).contains w = true :=
      List.elem_iff.mpr hc
    rw [add_word_of_present hp, if_pos he]
  · have hnone : List.lookup w v.word_to_id = none :=
      (lookup_eq_none_iff w _).mpr hc
    have he : ¬ (v.word_to_id.map Prod.fst).contains w = true :=
      fun hmem => hc (List.elem_iff.mp hmem)
    rw [add_word_of_absent hnone, if_neg he]
    simp

theorem addAll_keys (ws : List String) (v : Vocab) :
    (v.addAll ws).word_to_id.map Prod.fst =
      v.word_to_id.map Prod.fst ++
        newWords (v.word_to_id.map Prod.fst) ws := by
  induction ws generalizing v with
  | nil => simp [addAll, newWords]
  | cons w ws ih =>
    show ((v.add_word w).1.addAll ws).word_to_id.map Prod.fst = _
    rw [ih]
    rw [add_word_keys]
    by_cases hc : (v.word_to_id.map Prod.fst).contains w
    · simp only [hc, if_true, newWords, hc]
    · simp only [hc, if_false, newWords]
      simp [List.append_assoc]

end Vocab

/-! ### Lemmas about the collator -/

theorem pad_tensor_of_le {vec : List Int} {pad : Nat} (h : vec.length ≤ pad) :
    pad_tensor vec pad = some (vec ++ List.replicate (pad - vec.length) 0) := by
  simp [pad_tensor, Nat.not_lt_of_le h]

theorem length_pad_of_le {vec : List Int} {pad : Nat} (h : vec.length ≤ pad) :
    (vec ++ List.replicate (pad - vec.length) (0 : Int)).length = pad := by
  simp [Nat.add_sub_cancel' h]

theorem pad_batch_of_le {max_len : Nat} {batch : List (List Int × Int)}
    (h : ∀ b ∈ batch, b.1.length ≤ max_len) :
    pad_batch max_len batch =
      some (batch.map (fun b =>
        (b.1 ++ List.replicate (max_len - b.1.length) 0, b.2))) := by
  induction batch with
  | nil => rfl
  | cons b bs ih =>
    have hb : b.1.length ≤ max_len := h b (List.mem_cons_self ..)
    have hrest := ih (fun x hx => h x (List.mem_cons_of_mem _ hx))
    simp [pad_batch, pad_tensor_of_le hb, hrest]

theorem torch_stack_of_uniform {ts : List (List Int)} {M : Nat}
    (hne : ts ≠ []) (h : ∀ t ∈ ts, t.length = M) :
    torch_stack ts = some ts := by
  match ts with
  | [] => exact absurd rfl hne
  | t :: rest =>
    have ht : t.length = M := h t (List.mem_cons_self ..)
    have hall : rest.all (fun s => s.length = t.length) = true := by
      rw [List.all_eq_true]
      intro s hs
      have := h s (List.mem_cons_of_mem _ hs)
      simp [this, ht]
    simp [torch_stack, hall]

/-- The behaviour of `pad_collate` on every non-empty batch: the maximum
input length is computed, every sequence is right-padded with zeros to that
length, and the padded sequences and the labels are returned in input
order. -/
theorem pad_collate_eq {batch : List (List Int × Int)} (hne : batch ≠ []) :
    ∃ M, pyMax (batch.map (fun x => x.1.length)) = some M ∧
      (∀ b ∈ batch, b.1.length ≤ M) ∧
      M ∈ batch.map (fun x => x.1.length) ∧
      pad_collate batch =
        some (batch.map (fun b => b.1 ++ List.replicate (M - b.1.length) 0),
              batch.map (fun b => b.2)) := by
  have hmap : batch.map (fun x => x.1.length) ≠ [] := by
    simpa using hne
  obtain ⟨M, hM⟩ := pyMax_isSome hmap
  obtain ⟨hle, hmem⟩ := pyMax_spec hM
  have hlen : ∀ b ∈ batch, b.1.length ≤ M := by
    intro b hb
    exact hle _ (List.mem_map.mpr ⟨b, hb, rfl⟩)
  refine ⟨M, hM, hlen, hmem, ?_⟩
  have hpb := pad_batch_of_le hlen
  have hstack :
      torch_stack ((batch.map (fun b =>
          (b.1 ++ List.replicate (M - b.1.length) 0, b.2))).map (fun x => x.1)) =
        some ((batch.map (fun b =>
          (b.1 ++ List.replicate (M - b.1.length) 0, b.2))).map (fun x => x.1)) := by
    refine torch_stack_of_uniform (M := M) (by simpa using hne) ?_
    intro t ht
    simp only [List.map_map, List.mem_map, Function.comp] at ht
    obtain ⟨b, hb, rfl⟩ := ht
    exact length_pad_of_le (hlen b hb)
  rw [List.map_map] at hstack
  simp only [pad_collate, hM, hpb, List.map_map, hstack]
  simp [Function.comp]

/-! ### Lemmas about `splitSpace` -/

theorem splitSpace_ne_nil (cs : List Char) : splitSpace cs ≠ [] := by
  induction cs with
  | nil => simp [splitSpace]
  | cons c cs ih =>
    simp only [splitSpace]
    match h : splitSpace cs with
    | [] => exact absurd h ih
    | t :: ts =>
      by_cases hc : c = ' ' <;> simp [hc]

theorem splitSpace_cons_eq (cs : List Char) :
    ∃ t ts, splitSpace cs = t :: ts := by
  cases h : splitSpace cs with
  | nil => exact absurd h (splitSpace_ne_nil cs)
  | cons t ts => exact ⟨t, ts, rfl⟩

theorem splitSpace_cons (c : Char) (cs : List Char) {t : List Char}
    {ts : List (List Char)} (h : splitSpace cs = t :: ts) :
    splitSpace (c :: cs) =
      if c = ' ' then [] :: t :: ts else (c :: t) :: ts := by
  simp only [splitSpace, h]

theorem joinSpaces_splitSpace (cs : List Char) :
    joinSpaces (splitSpace cs) = cs := by
  induction cs with
  | nil => rfl
  | cons c cs ih =>
    obtain ⟨t, ts, h⟩ := splitSpace_cons_eq cs
    rw [splitSpace_cons c cs h]
    rw [h] at ih
    by_cases hc : c = ' '
    · subst hc
      rw [if_pos rfl]
      show [] ++ ' ' :: joinSpaces (t :: ts) = ' ' :: cs
      rw [ih]
      rfl
    · rw [if_neg hc]
      cases ts with
      | nil =>
        simp only [joinSpaces] at ih ⊢
        rw [ih]
      | cons t2 ts2 =>
        simp only [joinSpaces] at ih ⊢
        rw [List.cons_append, ih]

theorem space_not_mem_splitSpace (cs : List Char) :
    ∀ t ∈ splitSpace cs, ' ' ∉ t := by
  induction cs with
  | nil =>
    intro t ht
    simp [splitSpace] at ht
    simp [ht]
  | cons c cs ih =>
    intro t ht
    obtain ⟨u, us, h⟩ := splitSpace_cons_eq cs
    rw [splitSpace_cons c cs h] at ht
    by_cases hc : c = ' '
    · rw [if_pos hc] at ht
      rcases List.mem_cons.mp ht with rfl | hmem
      · simp
      · exact ih t (h ▸ hmem)
    · rw [if_neg hc] at ht
      rcases List.mem_cons.mp ht with rfl | hmem
      · intro hsp
        rcases List.mem_cons.mp hsp with heq | hmem2
        · exact hc heq.symm
        · exact ih u (h ▸ List.mem_cons_self ..) hmem2
      · exact ih t (h ▸ List.mem_cons_of_mem _ hmem)

theorem length_splitSpace (cs : List Char) :
    (splitSpace cs).length = cs.count ' ' + 1 := by
  induction cs with
  | nil => simp [splitSpace]
  | cons c cs ih =>
    obtain ⟨t, ts, h⟩ := splitSpace_cons_eq cs
    rw [splitSpace_cons c cs h]
    rw [h] at ih
    by_cases hc : c = ' '
    · subst hc
      rw [if_pos rfl]
      simp only [List.length_cons] at ih ⊢
      rw [ih, List.count_cons]
      simp
    · rw [if_neg hc]
      simp only [List.length_cons] at ih ⊢
      rw [ih, List.count_cons]
      have : (' ' == c) = false := beq_false_of_ne (fun heq => hc heq.symm)
      simp [this, hc]

/-! ### The claims -/

/-- Claim C1, counterexample: on the vocabulary built from the single token
"a" (with the unknown token pre-inserted at id 0), re-adding the already
present unknown token returns 1 — the id of the most recently inserted
token "a" — while the identifier assigned to the unknown token (what `to_id`
returns) is 0.  So `add_word` on an already present token does not return
the identifier currently assigned to it. -/
theorem c1_counterexample :
    ((Vocab.addAll (Vocab.init "<unk>" false) ["a"]).add_word "<unk>").2 = 1 ∧
    (Vocab.addAll (Vocab.init "<unk>" false) ["a"]).to_id "<unk>" = Except.ok 0 ∧
    (1 : Nat) ≠ 0 :=
  ⟨by decide, by decide, by decide⟩

/-- Claim C1 (amended): `add_word(w)` inserts `w` with the next sequential
identifier and returns that identifier when `w` is absent; when `w` is
already present the call is a no-op on the state — in particular `size()`
is unchanged — but it returns `size() - 1`, the identifier of the most
recently inserted token, which coincides with the identifier of `w` only
when `w` was the last token inserted. -/
theorem c1_add_word (v : Vocab) (w : String) :
    (List.lookup w v.word_to_id = none →
      (v.add_word w).2 = v.size ∧
      (v.add_word w).1.size = v.size + 1 ∧
      (v.add_word w).1.to_id w = Except.ok v.size) ∧
    (∀ i, List.lookup w v.word_to_id = some i →
      (v.add_word w).1 = v ∧ (v.add_word w).2 = v.size - 1) := by
  constructor
  · intro h
    rw [Vocab.add_word_of_absent h]
    refine ⟨rfl, rfl, ?_⟩
    have hl : List.lookup w (v.word_to_id ++ [(w, v.size)]) = some v.size := by
      rw [lookup_append_of_none w _ h]
      simp [List.lookup]
    simp [Vocab.to_id, hl]
  · intro i h
    have hp : (List.lookup w v.word_to_id).isSome = true := by
      rw [h]; rfl
    rw [Vocab.add_word_of_present hp]
    exact ⟨rfl, rfl⟩

/-- Witness for C1: a fresh insertion of "a" into a new vocabulary gets
id 1 and `to_id` then returns it; re-adding "a" leaves the state
unchanged. -/
theorem c1_add_word_witness :
    ((Vocab.init "<unk>" false).add_word "a").1.to_id "a" = Except.ok 1 ∧
    ((Vocab.addAll (Vocab.init "<unk>" false) ["a"]).add_word "a").1 =
      Vocab.addAll (Vocab.init "<unk>" false) ["a"] := by
  constructor
  · have h := (c1_add_word (Vocab.init "<unk>" false) "a").1 (by decide)
    simpa using h.2.2
  · exact ((c1_add_word (Vocab.addAll (Vocab.init "<unk>" false) ["a"]) "a").2 1
      (by decide)).1

/-- Claim C2 (confirmed): after any sequence of `add_word` calls starting
from a freshly constructed vocabulary, the keys of the forward map are
distinct and listed in first-seen order (the unknown token first when
enabled), the assigned identifiers are exactly `0, ..., size - 1` in that
order, the reverse map is the entrywise inverse of the forward map, both
maps hold exactly `size` entries, and with unknown-token support enabled
the unknown token has identifier 0. -/
theorem c2_vocab_invariants (u : String) (is_label : Bool) (ws : List String) :
    ((Vocab.addAll (Vocab.init u is_label) ws).word_to_id.map Prod.fst).Nodup ∧
    (Vocab.addAll (Vocab.init u is_label) ws).word_to_id.map Prod.snd =
      List.range (Vocab.addAll (Vocab.init u is_label) ws).size ∧
    (Vocab.addAll (Vocab.init u is_label) ws).id_to_word =
      (Vocab.addAll (Vocab.init u is_label) ws).word_to_id.map
        (fun p => (p.2, p.1)) ∧
    (Vocab.addAll (Vocab.init u is_label) ws).word_to_id.length =
      (Vocab.addAll (Vocab.init u is_label) ws).size ∧
    (Vocab.addAll (Vocab.init u is_label) ws).id_to_word.length =
      (Vocab.addAll (Vocab.init u is_label) ws).size ∧
    (Vocab.addAll (Vocab.init u is_label) ws).word_to_id.map Prod.fst =
      (if is_label then [] else [u]) ++
        Vocab.newWords (if is_label then [] else [u]) ws ∧
    (is_label = false →
      List.lookup u (Vocab.addAll (Vocab.init u is_label) ws).word_to_id =
        some 0) := by
  have hinv := (Vocab.inv_init u is_label).addAll ws
  refine ⟨hinv.1, hinv.2.1, hinv.2.2, Vocab.length_word_to_id hinv,
    Vocab.length_id_to_word hinv, ?_, ?_⟩
  · rw [Vocab.addAll_keys]
    have hkeys : (Vocab.init u is_label).word_to_id.map Prod.fst =
        if is_label then [] else [u] := by
      rw [Vocab.init_word_to_id]
      cases is_label <;> rfl
    rw [hkeys]
  · intro hl
    subst hl
    exact Vocab.addAll_lookup_preserved ws (Vocab.init_lookup_unk u)

/-- Witness for C2 at the spec scenario: the vocabulary built from
["a", "b", "a", "c"] with unknown support has the unknown token at id 0
and keys exactly [unk, "a", "b", "c"] in first-seen order. -/
theorem c2_vocab_invariants_witness :
    List.lookup "<unk>"
      (Vocab.addAll (Vocab.init "<unk>" false) ["a", "b", "a", "c"]).word_to_id =
      some 0 ∧
    (Vocab.addAll (Vocab.init "<unk>" false)
        ["a", "b", "a", "c"]).word_to_id.map Prod.fst =
      ["<unk>", "a", "b", "c"] := by
  have h := c2_vocab_invariants "<unk>" false ["a", "b", "a", "c"]
  refine ⟨h.2.2.2.2.2.2 rfl, ?_⟩
  rw [h.2.2.2.2.2.1]
  decide

/-- Claim C3, counterexample: on the label vocabulary (no unknown-token
support) built from ["pos", "neg", "pos"], `to_id("neutral")` fails by
reading the never-assigned `unk_id` attribute — an attribute error, which
in Python is not a lookup error (`AttributeError` is not a subclass of
`LookupError`). -/
theorem c3_counterexample :
    (Vocab.addAll (Vocab.init "<unk>" true) ["pos", "neg", "pos"]).to_id
        "neutral" =
      Except.error PyError.attributeError ∧
    Except.error PyError.attributeError ≠
      (Except.error PyError.keyError : Except PyError Nat) :=
  ⟨by decide, by decide⟩

/-- Claim C3 (amended): `to_id(w)` returns the assigned identifier when `w`
is present; when `w` is absent and the vocabulary was constructed with
unknown-token support it returns the unknown-token identifier 0; when `w`
is absent and the vocabulary was constructed with `is_label=True` the call
fails with an attribute error (the `unk_id` attribute was never assigned),
not with a lookup error. -/
theorem c3_to_id (u : String) (ws : List String) (w : String) :
    (∀ i, List.lookup w (Vocab.addAll (Vocab.init u false) ws).word_to_id =
        some i →
      (Vocab.addAll (Vocab.init u false) ws).to_id w = Except.ok i) ∧
    (List.lookup w (Vocab.addAll (Vocab.init u false) ws).word_to_id = none →
      (Vocab.addAll (Vocab.init u false) ws).to_id w = Except.ok 0) ∧
    (∀ i, List.lookup w (Vocab.addAll (Vocab.init u true) ws).word_to_id =
        some i →
      (Vocab.addAll (Vocab.init u true) ws).to_id w = Except.ok i) ∧
    (List.lookup w (Vocab.addAll (Vocab.init u true) ws).word_to_id = none →
      (Vocab.addAll (Vocab.init u true) ws).to_id w =
        Except.error PyError.attributeError) := by
  have hunkF : (Vocab.addAll (Vocab.init u false) ws).unk_id = some 0 := by
    rw [Vocab.addAll_unk_id]; rfl
  have hunkT : (Vocab.addAll (Vocab.init u true) ws).unk_id = none := by
    rw [Vocab.addAll_unk_id]; rfl
  refine ⟨?_, ?_, ?_, ?_⟩
  · intro i h; simp [Vocab.to_id, h]
  · intro h; simp [Vocab.to_id, h, hunkF]
  · intro i h; simp [Vocab.to_id, h]
  · intro h; simp [Vocab.to_id, h, hunkT]

/-- Witness for C3: an unseen token maps to id 0 with unknown support, and
fails with an attribute error on a label vocabulary. -/
theorem c3_to_id_witness :
    (Vocab.addAll (Vocab.init "<unk>" false) ["a"]).to_id "z" = Except.ok 0 ∧
    (Vocab.addAll (Vocab.init "<unk>" true) ["pos", "neg"]).to_id "neutral" =
      Except.error PyError.attributeError :=
  ⟨(c3_to_id "<unk>" ["a"] "z").2.1 (by decide),
   (c3_to_id "<unk>" ["pos", "neg"] "neutral").2.2.2 (by decide)⟩

/-- Claim C4 (confirmed): for every token `t` recorded in the forward map
with identifier `i` (i.e. added via `add_word`), `to_id t` returns `i` —
`to_id` is a pure function of the state, so repeated calls return the same
identifier — and `to_word (to_id t) = t`; moreover on any identifier
absent from the reverse map, `to_word` returns the unknown-token string
when unknown-token support is enabled. -/
theorem c4_stable_round_trip (v : Vocab) (hv : v.Inv) :
    (∀ t i, (t, i) ∈ v.word_to_id →
      v.to_id t = Except.ok i ∧ v.to_word i = Except.ok t) ∧
    (∀ s, v.unk_symbol = some s →
      ∀ j, j ∉ v.id_to_word.map Prod.fst → v.to_word j = Except.ok s) := by
  constructor
  · intro t i hm
    exact ⟨Vocab.to_id_of_mem hv hm, Vocab.to_word_of_mem hv hm⟩
  · intro s hs j hj
    have hnone : List.lookup j v.id_to_word = none :=
      (lookup_eq_none_iff j _).mpr hj
    simp [Vocab.to_word, hnone, hs]

/-- Witness for C4 on the vocabulary built from ["a", "b"]. -/
theorem c4_stable_round_trip_witness :
    (Vocab.addAll (Vocab.init "<unk>" false) ["a", "b"]).to_id "b" =
      Except.ok 2 ∧
    (Vocab.addAll (Vocab.init "<unk>" false) ["a", "b"]).to_word 2 =
      Except.ok "b" ∧
    (Vocab.addAll (Vocab.init "<unk>" false) ["a", "b"]).to_word 99 =
      Except.ok "<unk>" := by
  have h := c4_stable_round_trip
    (Vocab.addAll (Vocab.init "<unk>" false) ["a", "b"]) (by decide)
  have h1 := h.1 "b" 2 (by decide)
  have h2 := h.2 "<unk>" (by decide) 99 (by decide)
  exact ⟨h1.1, h1.2, h2⟩

/-- Claim C5 (confirmed): on any vocabulary satisfying the reachable-state
invariant, the set of tokens returned by `to_word` over the identifiers
`0 .. size - 1` is exactly the set of inserted tokens (the keys of the
forward map, which include the unknown token when it was pre-inserted). -/
theorem c5_round_trip_set (v : Vocab) (hv : v.Inv) (w : String) :
    (∃ i, i < v.size ∧ v.to_word i = Except.ok w) ↔
      w ∈ v.word_to_id.map Prod.fst := by
  constructor
  · rintro ⟨i, hi, hw⟩
    have hikeys : i ∈ v.id_to_word.map Prod.fst := by
      rw [Vocab.id_keys_eq_range hv]
      exact List.mem_range.mpr hi
    have hsome : (List.lookup i v.id_to_word).isSome = true :=
      (lookup_isSome_iff i _).mpr hikeys
    cases hl : List.lookup i v.id_to_word with
    | none => rw [hl] at hsome; simp at hsome
    | some t =>
      have hwd : v.to_word i = Except.ok t := by simp [Vocab.to_word, hl]
      have ht : t = w := Except.ok.inj (hwd.symm.trans hw)
      subst ht
      have hmem := mem_of_lookup_eq_some hl
      rw [hv.2.2] at hmem
      obtain ⟨⟨a, b⟩, hab, heq⟩ := List.mem_map.mp hmem
      have ha : a = t := congrArg Prod.snd heq
      subst ha
      exact List.mem_map.mpr ⟨(a, b), hab, rfl⟩
  · intro hw
    obtain ⟨⟨a, b⟩, hab, ha⟩ := List.mem_map.mp hw
    subst ha
    refine ⟨b, ?_, Vocab.to_word_of_mem hv hab⟩
    have hb : b ∈ v.word_to_id.map Prod.snd :=
      List.mem_map.mpr ⟨(a, b), hab, rfl⟩
    rw [hv.2.1] at hb
    exact List.mem_range.mp hb

/-- Witness for C5: some identifier below `size` maps back to the inserted
token "b". -/
theorem c5_round_trip_set_witness :
    ∃ i, i < (Vocab.addAll (Vocab.init "<unk>" false) ["a", "b"]).size ∧
      (Vocab.addAll (Vocab.init "<unk>" false) ["a", "b"]).to_word i =
        Except.ok "b" :=
  (c5_round_trip_set (Vocab.addAll (Vocab.init "<unk>" false) ["a", "b"])
    (by decide) "b").mpr (by decide)

/-- Claim C6 (confirmed): on every non-empty batch, `pad_collate` pads
every sequence to the maximum original sequence length `M` of the batch:
each output row is the corresponding original sequence followed by zeros,
and every output row has length exactly `M`. -/
theorem c6_pad_collate_shape (batch : List (List Int × Int))
    (hne : batch ≠ []) :
    ∃ M xs, pyMax (batch.map (fun x => x.1.length)) = some M ∧
      pad_collate batch = some (xs, batch.map (fun b => b.2)) ∧
      (∀ b ∈ batch, b.1.length ≤ M) ∧
      M ∈ batch.map (fun x => x.1.length) ∧
      xs = batch.map (fun b => b.1 ++ List.replicate (M - b.1.length) 0) ∧
      (∀ s ∈ xs, s.length = M) := by
  obtain ⟨M, hM, hle, hmem, heq⟩ := pad_collate_eq hne
  refine ⟨M, _, hM, heq, hle, hmem, rfl, ?_⟩
  intro s hs
  obtain ⟨b, hb, rfl⟩ := List.mem_map.mp hs
  exact length_pad_of_le (hle b hb)

/-- Witness for C6 at the spec scenario: collating [[1,2,3],[4,5]] with
labels [0,1] yields [[1,2,3],[4,5,0]] with labels [0,1]. -/
theorem c6_pad_collate_shape_witness :
    pad_collate [([1, 2, 3], (0 : Int)), ([4, 5], 1)] =
      some ([[1, 2, 3], [4, 5, 0]], [0, 1]) := by
  obtain ⟨M, xs, hM, hpc, hle, hmem, hxs, hlen⟩ :=
    c6_pad_collate_shape [([1, 2, 3], (0 : Int)), ([4, 5], 1)] (by decide)
  have hM3 : M = 3 := by
    have h3 : pyMax ([([1, 2, 3], (0 : Int)), ([4, 5], 1)].map
        (fun x => x.1.length)) = some 3 := by decide
    exact Option.some.inj (hM.symm.trans h3)
  subst hM3
  rw [hpc, hxs]
  decide

/-- Claim C7 (confirmed): `pad_collate` preserves example order and label
pairing — entry `i` of the stacked output is the padded form of the
sequence of input pair `i`, and entry `i` of the label output is the label
of input pair `i`, with the labels themselves unchanged in value. -/
theorem c7_pad_collate_order (batch : List (List Int × Int))
    (hne : batch ≠ []) :
    ∃ M xs ys, pad_collate batch = some (xs, ys) ∧
      pyMax (batch.map (fun x => x.1.length)) = some M ∧
      ys = batch.map (fun b => b.2) ∧
      xs.length = batch.length ∧ ys.length = batch.length ∧
      (∀ i : Nat, xs[i]? =
        (batch[i]?).map (fun b => b.1 ++ List.replicate (M - b.1.length) 0)) ∧
      (∀ i : Nat, ys[i]? = (batch[i]?).map (fun b => b.2)) := by
  obtain ⟨M, hM, hle, hmem, heq⟩ := pad_collate_eq hne
  refine ⟨M, _, _, heq, hM, rfl, by simp, by simp, ?_, ?_⟩
  · intro i
    rw [List.getElem?_map]
  · intro i
    rw [List.getElem?_map]

/-- Witness for C7: order and labels are preserved on the spec scenario
batch. -/
theorem c7_pad_collate_order_witness :
    ∃ xs ys, pad_collate [([1, 2, 3], (0 : Int)), ([4, 5], 1)] =
        some (xs, ys) ∧ ys = [0, 1] := by
  obtain ⟨M, xs, ys, hpc, hM, hys, _⟩ :=
    c7_pad_collate_order [([1, 2, 3], (0 : Int)), ([4, 5], 1)] (by decide)
  exact ⟨xs, ys, hpc, by rw [hys]; rfl⟩

/-- Claim C8 (confirmed): on a batch with exactly one (sequence, label)
pair, `pad_collate` pads the sequence to its own length, so the single
output row equals the input sequence and the label is returned as is. -/
theorem c8_singleton (s : List Int) (l : Int) :
    pad_collate [(s, l)] = some ([s], [l]) := by
  simp [pad_collate, pyMax, pad_batch, pad_tensor, torch_stack]

/-- Claim C9, counterexample: the tokenizer splits on the single space
character, not on whitespace in general.  On the text "atabb" the
tokenizer returns the whole text as one token, while whitespace-delimited
splitting (the spec's wording, embedded as `wsSplit`) returns the two
tokens "a" and "b". -/
theorem c9_counterexample :
    Tokenizer.call { lowercase := false } ['a', '\t', 'b'] ≠
      wsSplit ['a', '\t', 'b'] ∧
    Tokenizer.call { lowercase := false } ['a', '\t', 'b'] =
      [['a', '\t', 'b']] ∧
    wsSplit ['a', '\t', 'b'] = [['a'], ['b']] :=
  ⟨by decide, by decide, by decide⟩

/-- Claim C9 (amended): for every text and every setting of the lowercase
flag, the tokenizer returns the ordered list of substrings obtained by
splitting at each single occurrence of the space character — consecutive
spaces yield empty tokens and no other character (tab, newline) delimits —
with every token lowercased exactly when the flag is set; the call is a
pure function of the text and the flag.  The split is characterised by:
rejoining the pieces with single spaces recovers the text, no piece
contains a space, and there is exactly one more piece than there are
spaces in the text. -/
theorem c9_tokenizer (tk : Tokenizer) (text : List Char) :
    Tokenizer.call tk text =
      (splitSpace text).map
        (fun w => if tk.lowercase then w.map Char.toLower else w) ∧
    joinSpaces (splitSpace text) = text ∧
    (∀ t ∈ splitSpace text, ' ' ∉ t) ∧
    (splitSpace text).length = text.count ' ' + 1 ∧
    Tokenizer.call { lowercase := true } text =
      (Tokenizer.call { lowercase := false } text).map
        (List.map Char.toLower) := by
  refine ⟨rfl, joinSpaces_splitSpace text, space_not_mem_splitSpace text,
    length_splitSpace text, ?_⟩
  simp [Tokenizer.call, List.map_map]

/-- Witness for C9 on the text "a b". -/
theorem c9_tokenizer_witness :
    joinSpaces (splitSpace ['a', ' ', 'b']) = ['a', ' ', 'b'] ∧
    ' ' ∉ (['a'] : List Char) ∧
    Tokenizer.call { lowercase := true } ['A', ' ', 'b'] =
      (Tokenizer.call { lowercase := false } ['A', ' ', 'b']).map
        (List.map Char.toLower) := by
  have h := c9_tokenizer { lowercase := false } ['a', ' ', 'b']
  have h2 := c9_tokenizer { lowercase := false } ['A', ' ', 'b']
  exact ⟨h.2.1, h.2.2.1 ['a'] (by decide), h2.2.2.2.2⟩

/-- Claim C10 (confirmed): the query operations `to_id`, `to_word` and
`__len__` leave the vocabulary state unchanged (their bodies are single
return expressions; in the explicit-state embedding the state out equals
the state in), and `add_word` on an already present token leaves
`word_to_id`, `id_to_word` and `size` all unchanged. -/
theorem c10_frame (v : Vocab) (w : String) (i : Nat) :
    (v.to_id_st w).1 = v ∧
    (v.to_word_st i).1 = v ∧
    v.len_st.1 = v ∧
    ((List.lookup w v.word_to_id).isSome = true →
      (v.add_word w).1.word_to_id = v.word_to_id ∧
      (v.add_word w).1.id_to_word = v.id_to_word ∧
      (v.add_word w).1.size = v.size) := by
  refine ⟨rfl, rfl, rfl, ?_⟩
  intro h
  rw [Vocab.add_word_of_present h]
  exact ⟨rfl, rfl, rfl⟩

/-- Witness for C10: re-adding the present token "a" changes none of the
three fields, and a query returns the state unchanged. -/
theorem c10_frame_witness :
    ((Vocab.addAll (Vocab.init "<unk>" false) ["a"]).add_word "a").1.word_to_id =
      (Vocab.addAll (Vocab.init "<unk>" false) ["a"]).word_to_id ∧
    ((Vocab.addAll (Vocab.init "<unk>" false) ["a"]).to_id_st "a").1 =
      Vocab.addAll (Vocab.init "<unk>" false) ["a"] := by
  have h := c10_frame (Vocab.addAll (Vocab.init "<unk>" false) ["a"]) "a" 0
  exact ⟨(h.2.2.2 (by decide)).1, h.1⟩

end BdsNlp
